import Mathlib

/-
Shallow embedding of the ink! contract in src/lib.rs (mod simple_token).

Modelling decisions:
- AccountId is an abstract comparable identifier; we model it as Nat.
- Balance is u128; we use Nat and make the u128 width explicit: every
  arithmetic operation of the source that Rust performs with an unchecked
  `+` or `-` is modelled with an explicit overflow/underflow test whose
  failing side is `Outcome.trap` (ink! contracts are compiled with
  overflow-checks enabled, so an overflowing unchecked operation panics,
  which the host reverts).  `checked_mul` is modelled by the same test but
  mapped onto the explicit error the source maps it onto.
- ink's `Mapping` is modelled as an association list with first-match
  lookup, overwrite-or-append insert, and remove; `get(..).unwrap_or(d)`
  becomes `mgetD .. d`.
- Each message takes the resolved caller as an explicit argument and
  returns an `Outcome`: `ok s'` for `Ok(())` with post-state `s'`,
  `err e s'` for `Err(e)` where `s'` is the state at the moment of the
  early return, and `trap` for a panic.
-/

set_option maxHeartbeats 1000000

namespace Token

/-- The u128 modulus: an arithmetic result at or above this bound overflows. -/
def U128 : Nat := 2 ^ 128

/-- Lookup in the association-list model of an ink storage Mapping:
first entry with the key. -/
def mget {α β : Type} [DecidableEq α] : List (α × β) → α → Option β
  | [], _ => none
  | (k, v) :: rest, a => if k = a then some v else mget rest a

/-- Lookup with a default, the get(..).unwrap_or(d) pattern of the source. -/
def mgetD {α β : Type} [DecidableEq α] (m : List (α × β)) (a : α) (d : β) : β :=
  (mget m a).getD d

/-- Mapping insert: overwrite the entry for the key, or append a fresh entry. -/
def minsert {α β : Type} [DecidableEq α] : List (α × β) → α → β → List (α × β)
  | [], a, v => [(a, v)]
  | (k, w) :: rest, a, v =>
      if k = a then (a, v) :: rest else (k, w) :: minsert rest a v

/-- Mapping remove: drop the entry for the key. -/
def mremove {α β : Type} [DecidableEq α] : List (α × β) → α → List (α × β)
  | [], _ => []
  | (k, w) :: rest, a => if k = a then rest else (k, w) :: mremove rest a

/-- Sum of all stored values of the balances mapping. -/
def msum : List (Nat × Nat) → Nat
  | [] => 0
  | (_, v) :: rest => v + msum rest

/-- The Error enum of the contract. -/
inductive Error where
  | InsufficientBalance
  | NotOwner
  | InsufficientAllowance
  | ContractPaused
  | AddressBlacklisted
  | InvalidAmount
deriving DecidableEq

/-- The storage struct SimpleToken of the contract. -/
structure SimpleToken where
  balances : List (Nat × Nat)
  owner : Nat
  total_supply : Nat
  allowances : List ((Nat × Nat) × Nat)
  paused : Bool
  blacklist : List (Nat × Bool)
deriving DecidableEq

/-- Result of one message call: ok with the post-state, an explicit Err
carrying the state at the moment of the early return, or a trap (an
arithmetic panic, reverted by the host). -/
inductive Outcome where
  | ok : SimpleToken → Outcome
  | err : Error → SimpleToken → Outcome
  | trap : Outcome
deriving DecidableEq

/-- Whether an outcome is a success. -/
def Outcome.isOk : Outcome → Bool
  | .ok _ => true
  | _ => false

/-- Constructor new(): captures the constructing caller as owner,
zero-initializes everything else. -/
def SimpleToken.new (caller : Nat) : SimpleToken :=
  { balances := [], owner := caller, total_supply := 0,
    allowances := [], paused := false, blacklist := [] }

/-- Message balance_of: stored balance or 0. -/
def balance_of (s : SimpleToken) (account : Nat) : Nat :=
  mgetD s.balances account 0

/-- Message allowance: stored allowance or 0. -/
def allowance (s : SimpleToken) (owner spender : Nat) : Nat :=
  mgetD s.allowances (owner, spender) 0

/-- Message is_blacklisted: stored flag or false. -/
def is_blacklisted (s : SimpleToken) (address : Nat) : Bool :=
  mgetD s.blacklist address false

/-- Message is_paused. -/
def is_paused (s : SimpleToken) : Bool :=
  s.paused

/-- Message mint (src/lib.rs lines 83-99).  The source increments the
recipient balance and the total supply with unchecked additions; either
addition overflowing u128 is a trap. -/
def mint (s : SimpleToken) (caller dst : Nat) (amount : Nat) : Outcome :=
  if caller ≠ s.owner then
    .err .NotOwner s
  else
    let current_balance := mgetD s.balances dst 0
    if current_balance + amount < U128 ∧ s.total_supply + amount < U128 then
      .ok { s with balances := minsert s.balances dst (current_balance + amount),
                   total_supply := s.total_supply + amount }
    else
      .trap

/-- Message transfer (src/lib.rs lines 107-139). -/
def transfer (s : SimpleToken) (caller dst : Nat) (amount : Nat) : Outcome :=
  if s.paused then
    .err .ContractPaused s
  else if is_blacklisted s caller || is_blacklisted s dst then
    .err .AddressBlacklisted s
  else if amount = 0 then
    .err .InvalidAmount s
  else
    let caller_balance := mgetD s.balances caller 0
    if caller_balance < amount then
      .err .InsufficientBalance s
    else
      let b1 := minsert s.balances caller (caller_balance - amount)
      let receiver_balance := mgetD b1 dst 0
      if receiver_balance + amount < U128 then
        .ok { s with balances := minsert b1 dst (receiver_balance + amount) }
      else
        .trap

/-- Message approve (src/lib.rs lines 149-160): unconditionally overwrites
the (caller, spender) allowance. -/
def approve (s : SimpleToken) (caller spender : Nat) (amount : Nat) : Outcome :=
  .ok { s with allowances := minsert s.allowances (caller, spender) amount }

/-- Message transfer_from (src/lib.rs lines 170-215). -/
def transfer_from (s : SimpleToken) (caller frm dst : Nat) (amount : Nat) : Outcome :=
  if s.paused then
    .err .ContractPaused s
  else if is_blacklisted s frm || is_blacklisted s dst then
    .err .AddressBlacklisted s
  else if amount = 0 then
    .err .InvalidAmount s
  else
    let al := mgetD s.allowances (frm, caller) 0
    if al < amount then
      .err .InsufficientAllowance s
    else
      let from_balance := mgetD s.balances frm 0
      if from_balance < amount then
        .err .InsufficientBalance s
      else
        let a1 := minsert s.allowances (frm, caller) (al - amount)
        let b1 := minsert s.balances frm (from_balance - amount)
        let to_balance := mgetD b1 dst 0
        if to_balance + amount < U128 then
          .ok { s with allowances := a1,
                       balances := minsert b1 dst (to_balance + amount) }
        else
          .trap

/-- Message pause (src/lib.rs lines 219-225). -/
def pause (s : SimpleToken) (caller : Nat) : Outcome :=
  if caller ≠ s.owner then .err .NotOwner s
  else .ok { s with paused := true }

/-- Message unpause (src/lib.rs lines 229-235). -/
def unpause (s : SimpleToken) (caller : Nat) : Outcome :=
  if caller ≠ s.owner then .err .NotOwner s
  else .ok { s with paused := false }

/-- Message add_to_blacklist (src/lib.rs lines 245-251). -/
def add_to_blacklist (s : SimpleToken) (caller address : Nat) : Outcome :=
  if caller ≠ s.owner then .err .NotOwner s
  else .ok { s with blacklist := minsert s.blacklist address true }

/-- Message remove_from_blacklist (src/lib.rs lines 255-261). -/
def remove_from_blacklist (s : SimpleToken) (caller address : Nat) : Outcome :=
  if caller ≠ s.owner then .err .NotOwner s
  else .ok { s with blacklist := mremove s.blacklist address }

/-- The recipient blacklist scan of batch_transfer (the for loop over
recipient references). -/
def anyBlacklisted (s : SimpleToken) (recipients : List Nat) : Bool :=
  recipients.any (fun r => is_blacklisted s r)

/-- The crediting loop of batch_transfer: per recipient, in order, add the
amount onto the stored balance; an overflowing addition is a panic (none). -/
def batchLoop (bal : List (Nat × Nat)) (amount : Nat) :
    List Nat → Option (List (Nat × Nat))
  | [] => some bal
  | r :: rest =>
      let rb := mgetD bal r 0
      if rb + amount < U128 then
        batchLoop (minsert bal r (rb + amount)) amount rest
      else
        none

/-- Message batch_transfer (src/lib.rs lines 272-324). -/
def batch_transfer (s : SimpleToken) (caller : Nat)
    (recipients : List Nat) (amount : Nat) : Outcome :=
  if s.paused then
    .err .ContractPaused s
  else if is_blacklisted s caller then
    .err .AddressBlacklisted s
  else if anyBlacklisted s recipients then
    .err .AddressBlacklisted s
  else if amount = 0 then
    .err .InvalidAmount s
  else if amount * recipients.length < U128 then
    let total_amount := amount * recipients.length
    let caller_balance := mgetD s.balances caller 0
    if caller_balance < total_amount then
      .err .InsufficientBalance s
    else
      let b1 := minsert s.balances caller (caller_balance - total_amount)
      match batchLoop b1 amount recipients with
      | some b2 => .ok { s with balances := b2 }
      | none => .trap
  else
    .err .InsufficientBalance s

/-- Message burn (src/lib.rs lines 328-350).  The source decrements the
total supply with an unchecked subtraction; underflow is a trap. -/
def burn (s : SimpleToken) (caller : Nat) (amount : Nat) : Outcome :=
  if amount = 0 then
    .err .InvalidAmount s
  else
    let current_balance := mgetD s.balances caller 0
    if current_balance < amount then
      .err .InsufficientBalance s
    else if amount ≤ s.total_supply then
      .ok { s with balances := minsert s.balances caller (current_balance - amount),
                   total_supply := s.total_supply - amount }
    else
      .trap

/-- One message invocation of the contract. -/
inductive Op where
  | mint (dst : Nat) (amount : Nat)
  | transfer (dst : Nat) (amount : Nat)
  | approve (spender : Nat) (amount : Nat)
  | transferFrom (frm dst : Nat) (amount : Nat)
  | pause
  | unpause
  | addToBlacklist (address : Nat)
  | removeFromBlacklist (address : Nat)
  | batchTransfer (recipients : List Nat) (amount : Nat)
  | burn (amount : Nat)
deriving DecidableEq

/-- Dispatch one message from a given caller. -/
def step (s : SimpleToken) (caller : Nat) : Op → Outcome
  | .mint dst amount => mint s caller dst amount
  | .transfer dst amount => transfer s caller dst amount
  | .approve spender amount => approve s caller spender amount
  | .transferFrom frm dst amount => transfer_from s caller frm dst amount
  | .pause => pause s caller
  | .unpause => unpause s caller
  | .addToBlacklist address => add_to_blacklist s caller address
  | .removeFromBlacklist address => remove_from_blacklist s caller address
  | .batchTransfer recipients amount => batch_transfer s caller recipients amount
  | .burn amount => burn s caller amount

/-- The state after one message: a failed or trapped message leaves the
state unchanged (the host reverts it). -/
def applyOp (s : SimpleToken) (caller : Nat) (op : Op) : SimpleToken :=
  match step s caller op with
  | .ok s' => s'
  | .err _ _ => s
  | .trap => s

/-- The state after a sequence of messages, each with its caller. -/
def exec (s : SimpleToken) : List (Nat × Op) → SimpleToken
  | [] => s
  | (c, op) :: rest => exec (applyOp s c op) rest

/-- The ledger invariant: the sum of all stored balances equals the total
supply. -/
def Inv (s : SimpleToken) : Prop :=
  msum s.balances = s.total_supply

instance decInv (s : SimpleToken) : Decidable (Inv s) := by
  unfold Inv; infer_instance

theorem mget_minsert_self {α β : Type} [DecidableEq α]
    (m : List (α × β)) (a : α) (v : β) :
    mget (minsert m a v) a = some v := by
  induction m with
  | nil => simp [minsert, mget]
  | cons p rest ih =>
    obtain ⟨k, w⟩ := p
    by_cases h : k = a
    · simp [minsert, h, mget]
    · simp [minsert, h, mget, ih]

theorem mget_minsert_ne {α β : Type} [DecidableEq α]
    {b a : α} (h : b ≠ a) (m : List (α × β)) (v : β) :
    mget (minsert m a v) b = mget m b := by
  induction m with
  | nil => simp [minsert, mget, Ne.symm h]
  | cons p rest ih =>
    obtain ⟨k, w⟩ := p
    by_cases hk : k = a
    · subst hk
      simp [minsert, mget, Ne.symm h]
    · simp only [minsert, if_neg hk, mget]
      by_cases hb : k = b <;> simp [hb, ih]

theorem mgetD_minsert_self {α β : Type} [DecidableEq α]
    (m : List (α × β)) (a : α) (v d : β) :
    mgetD (minsert m a v) a d = v := by
  simp [mgetD, mget_minsert_self]

theorem mgetD_minsert_ne {α β : Type} [DecidableEq α]
    {b a : α} (h : b ≠ a) (m : List (α × β)) (v d : β) :
    mgetD (minsert m a v) b d = mgetD m b d := by
  simp [mgetD, mget_minsert_ne h]

theorem msum_minsert (m : List (Nat × Nat)) (a : Nat) (v : Nat) :
    msum (minsert m a v) + mgetD m a 0 = msum m + v := by
  induction m with
  | nil => simp [minsert, msum, mgetD, mget]
  | cons p rest ih =>
    obtain ⟨k, w⟩ := p
    by_cases h : k = a
    · subst h
      have h1 : minsert ((k, w) :: rest) k v = (k, v) :: rest := by simp [minsert]
      have h2 : mgetD ((k, w) :: rest) k 0 = w := by simp [mgetD, mget]
      rw [h1, h2]
      show v + msum rest + w = w + msum rest + v
      omega
    · have h1 : minsert ((k, w) :: rest) a v = (k, w) :: minsert rest a v := by
        simp [minsert, h]
      have h2 : mgetD ((k, w) :: rest) a 0 = mgetD rest a 0 := by
        simp [mgetD, mget, h]
      rw [h1, h2]
      show w + msum (minsert rest a v) + mgetD rest a 0 = w + msum rest + v
      omega

theorem mgetD_le_msum (m : List (Nat × Nat)) (a : Nat) :
    mgetD m a 0 ≤ msum m := by
  induction m with
  | nil => simp [mgetD, mget, msum]
  | cons p rest ih =>
    obtain ⟨k, w⟩ := p
    by_cases h : k = a
    · have h2 : mgetD ((k, w) :: rest) a 0 = w := by simp [mgetD, mget, h]
      rw [h2]
      show w ≤ w + msum rest
      omega
    · have h2 : mgetD ((k, w) :: rest) a 0 = mgetD rest a 0 := by
        simp [mgetD, mget, h]
      rw [h2]
      show mgetD rest a 0 ≤ w + msum rest
      omega

theorem batchLoop_msum (amount : Nat) (rs : List Nat) :
    ∀ bal bal', batchLoop bal amount rs = some bal' →
      msum bal' = msum bal + rs.length * amount := by
  induction rs with
  | nil =>
    intro bal bal' h
    simp [batchLoop] at h
    subst h
    simp
  | cons r rest ih =>
    intro bal bal' h
    simp only [batchLoop] at h
    split at h
    · have h1 := msum_minsert bal r (mgetD bal r 0 + amount)
      have h2 := ih (minsert bal r (mgetD bal r 0 + amount)) bal' h
      simp only [List.length_cons, Nat.succ_mul]
      omega
    · exact absurd h (by simp)

theorem inv_mint (s : SimpleToken) (c dst amount : Nat) (s' : SimpleToken)
    (hInv : Inv s) (h : mint s c dst amount = .ok s') : Inv s' := by
  unfold mint at h
  simp only [] at h
  split at h
  · simp at h
  · split at h
    · cases h
      have h1 := msum_minsert s.balances dst (mgetD s.balances dst 0 + amount)
      unfold Inv at *
      simp only []
      omega
    · simp at h

theorem inv_transfer (s : SimpleToken) (c dst amount : Nat) (s' : SimpleToken)
    (hInv : Inv s) (h : transfer s c dst amount = .ok s') : Inv s' := by
  unfold transfer at h
  simp only [] at h
  split at h
  · simp at h
  split at h
  · simp at h
  split at h
  · simp at h
  split at h
  · simp at h
  next hcb =>
  split at h
  · cases h
    have h1 := msum_minsert s.balances c (mgetD s.balances c 0 - amount)
    have h2 := msum_minsert (minsert s.balances c (mgetD s.balances c 0 - amount))
      dst (mgetD (minsert s.balances c (mgetD s.balances c 0 - amount)) dst 0 + amount)
    have h3 := mgetD_le_msum s.balances c
    unfold Inv at *
    simp only []
    omega
  · simp at h

theorem inv_transfer_from (s : SimpleToken) (c frm dst amount : Nat) (s' : SimpleToken)
    (hInv : Inv s) (h : transfer_from s c frm dst amount = .ok s') : Inv s' := by
  unfold transfer_from at h
  simp only [] at h
  split at h
  · simp at h
  split at h
  · simp at h
  split at h
  · simp at h
  split at h
  · simp at h
  split at h
  · simp at h
  next hfb =>
  split at h
  · cases h
    have h1 := msum_minsert s.balances frm (mgetD s.balances frm 0 - amount)
    have h2 := msum_minsert (minsert s.balances frm (mgetD s.balances frm 0 - amount))
      dst (mgetD (minsert s.balances frm (mgetD s.balances frm 0 - amount)) dst 0 + amount)
    have h3 := mgetD_le_msum s.balances frm
    unfold Inv at *
    simp only []
    omega
  · simp at h

theorem inv_batch_transfer (s : SimpleToken) (c : Nat) (rs : List Nat) (amount : Nat)
    (s' : SimpleToken) (hInv : Inv s) (h : batch_transfer s c rs amount = .ok s') :
    Inv s' := by
  unfold batch_transfer at h
  simp only [] at h
  split at h
  · simp at h
  split at h
  · simp at h
  split at h
  · simp at h
  split at h
  · simp at h
  split at h
  · next hmul =>
    split at h
    · simp at h
    next hcb =>
    split at h
    · next b2 hloop =>
      cases h
      have h1 := msum_minsert s.balances c (mgetD s.balances c 0 - amount * rs.length)
      have h2 := batchLoop_msum amount rs
        (minsert s.balances c (mgetD s.balances c 0 - amount * rs.length)) b2 hloop
      have h3 := mgetD_le_msum s.balances c
      have h4 : amount * rs.length = rs.length * amount := Nat.mul_comm _ _
      unfold Inv at *
      simp only []
      omega
    · simp at h
  · simp at h

theorem inv_burn (s : SimpleToken) (c amount : Nat) (s' : SimpleToken)
    (hInv : Inv s) (h : burn s c amount = .ok s') : Inv s' := by
  unfold burn at h
  simp only [] at h
  split at h
  · simp at h
  split at h
  · simp at h
  split at h
  · cases h
    have h1 := msum_minsert s.balances c (mgetD s.balances c 0 - amount)
    have h3 := mgetD_le_msum s.balances c
    unfold Inv at *
    simp only []
    omega
  · simp at h

theorem inv_step (s : SimpleToken) (c : Nat) (op : Op) (s' : SimpleToken)
    (hInv : Inv s) (h : step s c op = .ok s') : Inv s' := by
  cases op with
  | mint dst amount => exact inv_mint s c dst amount s' hInv h
  | transfer dst amount => exact inv_transfer s c dst amount s' hInv h
  | approve spender amount =>
    simp only [step, approve] at h
    cases h
    exact hInv
  | transferFrom frm dst amount => exact inv_transfer_from s c frm dst amount s' hInv h
  | pause =>
    simp only [step, pause] at h
    split at h
    · simp at h
    · cases h; exact hInv
  | unpause =>
    simp only [step, unpause] at h
    split at h
    · simp at h
    · cases h; exact hInv
  | addToBlacklist address =>
    simp only [step, add_to_blacklist] at h
    split at h
    · simp at h
    · cases h; exact hInv
  | removeFromBlacklist address =>
    simp only [step, remove_from_blacklist] at h
    split at h
    · simp at h
    · cases h; exact hInv
  | batchTransfer rs amount => exact inv_batch_transfer s c rs amount s' hInv h
  | burn amount => exact inv_burn s c amount s' hInv h

theorem inv_applyOp (s : SimpleToken) (c : Nat) (op : Op) (hInv : Inv s) :
    Inv (applyOp s c op) := by
  unfold applyOp
  split
  · next s' hs => exact inv_step s c op s' hInv hs
  · exact hInv
  · exact hInv

theorem inv_exec (ops : List (Nat × Op)) :
    ∀ s : SimpleToken, Inv s → Inv (exec s ops) := by
  induction ops with
  | nil => intro s hInv; exact hInv
  | cons p rest ih =>
    intro s hInv
    obtain ⟨c, op⟩ := p
    exact ih (applyOp s c op) (inv_applyOp s c op hInv)

theorem step_err_state (s : SimpleToken) (c : Nat) (op : Op) (e : Error)
    (s' : SimpleToken) (h : step s c op = .err e s') : s' = s := by
  cases op <;>
    simp only [step, mint, transfer, approve, transfer_from, pause, unpause,
      add_to_blacklist, remove_from_blacklist, batch_transfer, burn] at h <;>
    (repeat' split at h) <;>
    first
      | (cases h; rfl)
      | simp at h

theorem step_ok_owner (s : SimpleToken) (c : Nat) (op : Op)
    (s' : SimpleToken) (h : step s c op = .ok s') : s'.owner = s.owner := by
  cases op <;>
    simp only [step, mint, transfer, approve, transfer_from, pause, unpause,
      add_to_blacklist, remove_from_blacklist, batch_transfer, burn] at h <;>
    (repeat' split at h) <;>
    first
      | (cases h; rfl)
      | simp at h

/-- Example state: freshly constructed ledger, constructed by caller 0. -/
def exS0 : SimpleToken := SimpleToken.new 0

/-- Example state: the owner minted 100 tokens to account 5. -/
def exSA : SimpleToken := applyOp exS0 0 (.mint 5 100)

/-- Example state: account 5 then transferred 30 tokens to account 6. -/
def exSB : SimpleToken := applyOp exSA 5 (.transfer 6 30)

/-- Example state: the owner minted 50 tokens to account 7. -/
def exS50 : SimpleToken := applyOp exS0 0 (.mint 7 50)

/-- Example state: exSA with the contract paused by the owner. -/
def exSP : SimpleToken := applyOp exSA 0 .pause

/-- Example state: the owner minted 100 to account 1, then account 1
approved spender 2 for 100. -/
def exSC : SimpleToken := applyOp (applyOp exS0 0 (.mint 1 100)) 1 (.approve 2 100)

/-- Example state: spender 2 then moved 40 from account 1 to account 3. -/
def exSE : SimpleToken := applyOp exSC 2 (.transferFrom 1 3 40)

/-- Example state: exS50 paused and with account 7 blacklisted. -/
def exSPB : SimpleToken := applyOp (applyOp exS50 0 .pause) 0 (.addToBlacklist 7)

/-- Example state: blacklisted account 7 burned 20 while paused. -/
def exSBurn : SimpleToken := applyOp exSPB 7 (.burn 20)

/-- Example state: account 5 batch-transferred 10 twice to account 6. -/
def exSDup : SimpleToken := applyOp exSA 5 (.batchTransfer [6, 6] 10)

/-- Example state: account 9 (balance zero) batch-transferred to nobody. -/
def exSEmpty : SimpleToken := applyOp exS0 9 (.batchTransfer [] 5)

/-- C1: the claim states that when the owner calls mint and either the
recipient balance or the total supply would exceed the u128 width, mint
returns an explicit result failure rather than panicking or wrapping.
The code performs both additions unchecked, so from the reachable state
where the owner already minted U128-1 tokens to account 1 a further
mint(1, 1) panics (trap) instead of returning an Err.  The spec demands
checked arithmetic mapped onto a result failure, and the neighbouring
batch_transfer uses checked_mul, so the unchecked additions in mint are
the slip. -/
theorem mint_overflow_traps :
    step (applyOp (SimpleToken.new 0) 0 (.mint 1 (U128 - 1))) 0 (.mint 1 1) =
      .trap := by
  decide

/-- C2: supply conservation.  Starting from a freshly constructed ledger,
after every sequence of operations the sum of all stored balances equals
the total supply (failed and trapped operations are reverted by the host
and leave the state unchanged), and every individually succeeding
operation preserves the invariant. -/
theorem supply_conservation :
    (∀ (c : Nat) (ops : List (Nat × Op)), Inv (exec (SimpleToken.new c) ops))
  ∧ (∀ (s : SimpleToken) (c : Nat) (op : Op) (s' : SimpleToken),
      Inv s → step s c op = .ok s' → Inv s') :=
  ⟨fun c ops => inv_exec ops (SimpleToken.new c) rfl,
   fun s c op s' hInv h => inv_step s c op s' hInv h⟩

theorem supply_conservation_witness :
    Inv exSA ∧ Inv (exec (SimpleToken.new 0) []) :=
  ⟨supply_conservation.2 exS0 0 (.mint 5 100) exSA (by decide) (by decide),
   supply_conservation.1 0 []⟩

/-- C3: every mutating operation is atomic: whenever a message returns an
explicit error, the state carried at the error return is exactly the entry
state, so every balance, the total supply, the allowances, the paused flag
and the blacklist are unchanged.  The witness exercises the claim's
concrete scenario: with caller balance 50, batch_transfer([1,2,3], 20)
fails with InsufficientBalance and the whole state is unchanged. -/
theorem err_atomicity (s : SimpleToken) (c : Nat) (op : Op) (e : Error)
    (s' : SimpleToken) (h : step s c op = .err e s') : s' = s :=
  step_err_state s c op e s' h

theorem err_atomicity_witness :
    step exS50 7 (.batchTransfer [1, 2, 3] 20) =
        .err .InsufficientBalance exS50 ∧
      exS50 = exS50 :=
  ⟨by decide,
   err_atomicity exS50 7 (.batchTransfer [1, 2, 3] 20) .InsufficientBalance
     exS50 (by decide)⟩

/-- C6: when the multiplication amount * count(recipients) reaches the u128
bound, batch_transfer fails with the explicit error InsufficientBalance --
not a new error kind and not a panic. -/
theorem batch_mul_overflow (s : SimpleToken) (c : Nat) (rs : List Nat)
    (amount : Nat) (hp : s.paused = false) (hbc : is_blacklisted s c = false)
    (hbr : anyBlacklisted s rs = false) (ha : amount ≠ 0)
    (hov : U128 ≤ amount * rs.length) :
    batch_transfer s c rs amount = .err .InsufficientBalance s := by
  unfold batch_transfer
  simp [hp, hbc, hbr, ha, Nat.not_lt.mpr hov]

theorem batch_mul_overflow_witness :
    batch_transfer exS50 7 [1, 2] (2 ^ 127) = .err .InsufficientBalance exS50 :=
  batch_mul_overflow exS50 7 [1, 2] (2 ^ 127) (by decide) (by decide)
    (by decide) (by decide) (by decide)

/-- C9: the owner is set at construction to the constructing caller and no
operation, whether it succeeds or fails, changes it. -/
theorem owner_immutable (s : SimpleToken) (c : Nat) (op : Op) :
    ((SimpleToken.new c).owner = c) ∧
    (∀ s', step s c op = .ok s' → s'.owner = s.owner) ∧
    (∀ e s', step s c op = .err e s' → s'.owner = s.owner) :=
  ⟨rfl,
   fun s' h => step_ok_owner s c op s' h,
   fun e s' h => by rw [step_err_state s c op e s' h]⟩

theorem owner_immutable_witness :
    exSA.owner = exS0.owner ∧ exS0.owner = 0 :=
  ⟨(owner_immutable exS0 0 (.mint 5 100)).2.1 exSA (by decide),
   (owner_immutable exS0 0 .pause).1⟩

/-- C4: transfer checks its preconditions in exactly the order pause,
blacklist (caller or recipient), zero amount, balance sufficiency, and
returns the first failing check's error; on success the caller balance
decreases by the amount, the recipient balance increases by it (stated for
a recipient distinct from the caller; a self-transfer nets to no change),
and the total supply is unchanged. -/
theorem transfer_check_order (s : SimpleToken) (c dst amount : Nat) :
    (s.paused = true → transfer s c dst amount = .err .ContractPaused s)
  ∧ (s.paused = false → (is_blacklisted s c || is_blacklisted s dst) = true →
      transfer s c dst amount = .err .AddressBlacklisted s)
  ∧ (s.paused = false → (is_blacklisted s c || is_blacklisted s dst) = false →
      amount = 0 → transfer s c dst amount = .err .InvalidAmount s)
  ∧ (s.paused = false → (is_blacklisted s c || is_blacklisted s dst) = false →
      amount ≠ 0 → balance_of s c < amount →
      transfer s c dst amount = .err .InsufficientBalance s)
  ∧ (∀ s', transfer s c dst amount = .ok s' →
      s'.total_supply = s.total_supply ∧
      (c ≠ dst → balance_of s' c = balance_of s c - amount ∧
        balance_of s' dst = balance_of s dst + amount)) := by
  refine ⟨?_, ?_, ?_, ?_, ?_⟩
  · intro hp
    unfold transfer
    simp [hp]
  · intro hp hb
    unfold transfer
    simp [hp, hb]
  · intro hp hb h0
    unfold transfer
    simp [hp, hb, h0]
  · intro hp hb h0 hlt
    have hlt' : mgetD s.balances c 0 < amount := hlt
    unfold transfer
    simp [hp, hb, h0, hlt']
  · intro s' h
    unfold transfer at h
    split at h
    · simp at h
    split at h
    · simp at h
    split at h
    · simp at h
    simp only [] at h
    split at h
    · simp at h
    split at h
    · cases h
      refine ⟨rfl, fun hne => ⟨?_, ?_⟩⟩
      · simp only [balance_of]
        rw [mgetD_minsert_ne hne, mgetD_minsert_self]
      · simp only [balance_of]
        rw [mgetD_minsert_self, mgetD_minsert_ne (Ne.symm hne)]
    · simp at h

theorem transfer_check_order_witness :
    transfer exSP 5 6 10 = .err .ContractPaused exSP ∧
    exSB.total_supply = exSA.total_supply ∧
    balance_of exSB 5 = balance_of exSA 5 - 30 ∧
    balance_of exSB 6 = balance_of exSA 6 + 30 :=
  ⟨(transfer_check_order exSP 5 6 10).1 (by decide),
   ((transfer_check_order exSA 5 6 30).2.2.2.2 exSB (by decide)).1,
   (((transfer_check_order exSA 5 6 30).2.2.2.2 exSB (by decide)).2 (by decide)).1,
   (((transfer_check_order exSA 5 6 30).2.2.2.2 exSB (by decide)).2 (by decide)).2⟩

/-- C5: transfer_from checks, in order: pause, blacklist of the from and
dst accounts (no condition ever mentions the calling spender's blacklist
status), zero amount, allowance of (from, caller), then the from balance;
on success the (from, caller) allowance decreases by exactly the amount
and the amount moves from the from account to the dst account while the
total supply is unchanged.  The witness replays the claim's scenario:
approve(S, 100) by A, then transfer_from(A, B, 40) by S leaves
allowance(A, S) = 60 and raises B's balance by 40. -/
theorem transfer_from_check_order (s : SimpleToken) (c frm dst amount : Nat) :
    (s.paused = true → transfer_from s c frm dst amount = .err .ContractPaused s)
  ∧ (s.paused = false → (is_blacklisted s frm || is_blacklisted s dst) = true →
      transfer_from s c frm dst amount = .err .AddressBlacklisted s)
  ∧ (s.paused = false → (is_blacklisted s frm || is_blacklisted s dst) = false →
      amount = 0 → transfer_from s c frm dst amount = .err .InvalidAmount s)
  ∧ (s.paused = false → (is_blacklisted s frm || is_blacklisted s dst) = false →
      amount ≠ 0 → allowance s frm c < amount →
      transfer_from s c frm dst amount = .err .InsufficientAllowance s)
  ∧ (s.paused = false → (is_blacklisted s frm || is_blacklisted s dst) = false →
      amount ≠ 0 → amount ≤ allowance s frm c → balance_of s frm < amount →
      transfer_from s c frm dst amount = .err .InsufficientBalance s)
  ∧ (∀ s', transfer_from s c frm dst amount = .ok s' →
      allowance s' frm c = allowance s frm c - amount ∧
      s'.total_supply = s.total_supply ∧
      (frm ≠ dst → balance_of s' frm = balance_of s frm - amount ∧
        balance_of s' dst = balance_of s dst + amount)) := by
  refine ⟨?_, ?_, ?_, ?_, ?_, ?_⟩
  · intro hp
    unfold transfer_from
    simp [hp]
  · intro hp hb
    unfold transfer_from
    simp [hp, hb]
  · intro hp hb h0
    unfold transfer_from
    simp [hp, hb, h0]
  · intro hp hb h0 hal
    have hal' : mgetD s.allowances (frm, c) 0 < amount := hal
    unfold transfer_from
    simp [hp, hb, h0, hal']
  · intro hp hb h0 hal hfb
    have hal' : ¬ mgetD s.allowances (frm, c) 0 < amount := Nat.not_lt.mpr hal
    have hfb' : mgetD s.balances frm 0 < amount := hfb
    unfold transfer_from
    simp [hp, hb, h0, hal', hfb']
  · intro s' h
    unfold transfer_from at h
    split at h
    · simp at h
    split at h
    · simp at h
    split at h
    · simp at h
    simp only [] at h
    split at h
    · simp at h
    split at h
    · simp at h
    split at h
    · cases h
      refine ⟨?_, rfl, fun hne => ⟨?_, ?_⟩⟩
      · simp only [allowance]
        rw [mgetD_minsert_self]
      · simp only [balance_of]
        rw [mgetD_minsert_ne hne, mgetD_minsert_self]
      · simp only [balance_of]
        rw [mgetD_minsert_self, mgetD_minsert_ne (Ne.symm hne)]
    · simp at h

theorem transfer_from_check_order_witness :
    allowance exSE 1 2 = 60 ∧
    balance_of exSE 3 = balance_of exSC 3 + 40 ∧
    balance_of exSE 1 = balance_of exSC 1 - 40 :=
  ⟨(((transfer_from_check_order exSC 2 1 3 40).2.2.2.2.2 exSE (by decide)).1).trans
     (by decide),
   ((((transfer_from_check_order exSC 2 1 3 40).2.2.2.2.2 exSE (by decide)).2.2)
     (by decide)).2,
   ((((transfer_from_check_order exSC 2 1 3 40).2.2.2.2.2 exSE (by decide)).2.2)
     (by decide)).1⟩

/-- C7: duplicate recipients in batch_transfer each receive the amount
independently: a caller distinct from the recipient, with sufficient
balance and no pause/blacklist obstruction, succeeds on
batch_transfer([r, r], v); the recipient balance rises by exactly 2v and
the caller balance falls by exactly 2v.  The u128-width side conditions
say the doubled amount and the recipient's credited balance stay
representable, which holds in every reachable state. -/
theorem batch_duplicate (s : SimpleToken) (c r v : Nat)
    (hcr : c ≠ r) (hp : s.paused = false) (hbc : is_blacklisted s c = false)
    (hbr : is_blacklisted s r = false) (hv : v ≠ 0)
    (hbal : 2 * v ≤ balance_of s c) (hrov : balance_of s r + 2 * v < U128) :
    (batch_transfer s c [r, r] v).isOk = true ∧
    ∀ s', batch_transfer s c [r, r] v = .ok s' →
      balance_of s' r = balance_of s r + 2 * v ∧
      balance_of s' c = balance_of s c - 2 * v := by
  have hrr : anyBlacklisted s [r, r] = false := by
    simp [anyBlacklisted, hbr]
  have hrov' : mgetD s.balances r 0 + 2 * v < U128 := hrov
  have hm2 : v * 2 < U128 := by omega
  have hbal' : 2 * v ≤ mgetD s.balances c 0 := hbal
  have hcb : ¬ mgetD s.balances c 0 < v * 2 := by omega
  have hb1 : mgetD (minsert s.balances c (mgetD s.balances c 0 - v * 2)) r 0
      = mgetD s.balances r 0 := mgetD_minsert_ne (Ne.symm hcr) _ _ _
  have hc1 : mgetD s.balances r 0 + v < U128 := by omega
  have hc2 : mgetD s.balances r 0 + v + v < U128 := by omega
  have hcalc : batch_transfer s c [r, r] v =
      .ok { s with balances := minsert (minsert (minsert s.balances c (mgetD s.balances c 0 - v * 2)) r (mgetD s.balances r 0 + v)) r (mgetD s.balances r 0 + v + v) } := by
    unfold batch_transfer
    simp [hp, hbc, hrr, hv, hm2, hcb, batchLoop, hb1, hc1, hc2,
      mgetD_minsert_self]
  refine ⟨by rw [hcalc]; rfl, fun s' h => ?_⟩
  rw [hcalc] at h
  cases h
  constructor
  · simp only [balance_of]
    rw [mgetD_minsert_self]
    omega
  · simp only [balance_of]
    rw [mgetD_minsert_ne hcr, mgetD_minsert_ne hcr, mgetD_minsert_self]
    omega

theorem batch_duplicate_witness :
    (batch_transfer exSA 5 [6, 6] 10).isOk = true ∧
    balance_of exSDup 6 = balance_of exSA 6 + 2 * 10 ∧
    balance_of exSDup 5 = balance_of exSA 5 - 2 * 10 :=
  ⟨(batch_duplicate exSA 5 6 10 (by decide) (by decide) (by decide) (by decide)
      (by decide) (by decide) (by decide)).1,
   ((batch_duplicate exSA 5 6 10 (by decide) (by decide) (by decide) (by decide)
      (by decide) (by decide) (by decide)).2 exSDup (by decide)).1,
   ((batch_duplicate exSA 5 6 10 (by decide) (by decide) (by decide) (by decide)
      (by decide) (by decide) (by decide)).2 exSDup (by decide)).2⟩

/-- C8: burn is gated only by the zero-amount check and the caller-balance
check; neither the paused flag nor the blacklist is consulted (the success
conjunct carries no hypothesis about either), and on success the caller
balance and the total supply each fall by exactly the amount.  The
invariant hypothesis embodies reachability: it guarantees the total supply
covers the caller balance so the source's unchecked supply subtraction
cannot underflow.  The witness burns from a blacklisted caller while the
contract is paused. -/
theorem burn_spec (s : SimpleToken) (c amount : Nat) :
    (amount = 0 → burn s c amount = .err .InvalidAmount s)
  ∧ (amount ≠ 0 → balance_of s c < amount →
      burn s c amount = .err .InsufficientBalance s)
  ∧ (Inv s → amount ≠ 0 → amount ≤ balance_of s c →
      burn s c amount =
        .ok { s with balances := minsert s.balances c (balance_of s c - amount),
                     total_supply := s.total_supply - amount })
  ∧ (∀ s', burn s c amount = .ok s' →
      balance_of s' c = balance_of s c - amount ∧
      s'.total_supply = s.total_supply - amount ∧
      s'.paused = s.paused ∧ s'.blacklist = s.blacklist) := by
  refine ⟨?_, ?_, ?_, ?_⟩
  · intro h0
    unfold burn
    simp [h0]
  · intro hv hlt
    have hlt' : mgetD s.balances c 0 < amount := hlt
    unfold burn
    simp [hv, hlt']
  · intro hInv hv hle
    have hle' : amount ≤ mgetD s.balances c 0 := hle
    have hsum := mgetD_le_msum s.balances c
    have hts : amount ≤ s.total_supply := by
      unfold Inv at hInv
      omega
    unfold burn
    simp [hv, Nat.not_lt.mpr hle', hts]
    rfl
  · intro s' h
    unfold burn at h
    split at h
    · simp at h
    simp only [] at h
    split at h
    · simp at h
    split at h
    · cases h
      refine ⟨?_, rfl, rfl, rfl⟩
      simp only [balance_of]
      rw [mgetD_minsert_self]
    · simp at h

theorem burn_spec_witness :
    exSPB.paused = true ∧ is_blacklisted exSPB 7 = true ∧
    burn exSPB 7 20 =
      .ok { exSPB with
              balances := minsert exSPB.balances 7 (balance_of exSPB 7 - 20),
              total_supply := exSPB.total_supply - 20 } ∧
    balance_of exSBurn 7 = balance_of exSPB 7 - 20 ∧
    exSBurn.total_supply = exSPB.total_supply - 20 :=
  ⟨by decide, by decide,
   (burn_spec exSPB 7 20).2.2.1 (by decide) (by decide) (by decide),
   ((burn_spec exSPB 7 20).2.2.2 exSBurn (by decide)).1,
   (((burn_spec exSPB 7 20).2.2.2 exSBurn (by decide)).2).1⟩

/-- C10: with the contract unpaused, the caller unblacklisted and the
amount nonzero, batch_transfer with an empty recipients list returns Ok --
even for a caller with zero balance, since the required total is 0 -- and
every observable balance, the total supply, the allowances, the paused
flag and the blacklist are unchanged. -/
theorem batch_empty (s : SimpleToken) (c amount : Nat)
    (hp : s.paused = false) (hbc : is_blacklisted s c = false)
    (hv : amount ≠ 0) :
    (batch_transfer s c [] amount).isOk = true ∧
    ∀ s', batch_transfer s c [] amount = .ok s' →
      (∀ a, balance_of s' a = balance_of s a) ∧
      s'.total_supply = s.total_supply ∧
      s'.allowances = s.allowances ∧
      s'.paused = s.paused ∧
      s'.blacklist = s.blacklist := by
  have hU : 0 < U128 := by decide
  have hcalc : batch_transfer s c [] amount =
      .ok { s with balances := minsert s.balances c (mgetD s.balances c 0) } := by
    unfold batch_transfer
    simp [hp, hbc, hv, anyBlacklisted, batchLoop, hU]
  refine ⟨by rw [hcalc]; rfl, fun s' h => ?_⟩
  rw [hcalc] at h
  cases h
  refine ⟨fun a => ?_, rfl, rfl, rfl, rfl⟩
  by_cases ha : a = c
  · subst ha
    simp only [balance_of]
    rw [mgetD_minsert_self]
  · simp only [balance_of]
    rw [mgetD_minsert_ne ha]

theorem batch_empty_witness :
    (batch_transfer exS0 9 [] 5).isOk = true ∧
    balance_of exSEmpty 9 = balance_of exS0 9 ∧
    balance_of exS0 9 = 0 ∧
    exSEmpty.total_supply = exS0.total_supply ∧
    exSEmpty.allowances = exS0.allowances ∧
    exSEmpty.paused = exS0.paused ∧
    exSEmpty.blacklist = exS0.blacklist :=
  ⟨(batch_empty exS0 9 5 (by decide) (by decide) (by decide)).1,
   ((batch_empty exS0 9 5 (by decide) (by decide) (by decide)).2 exSEmpty
     (by decide)).1 9,
   by decide,
   ((batch_empty exS0 9 5 (by decide) (by decide) (by decide)).2 exSEmpty
     (by decide)).2.1,
   ((batch_empty exS0 9 5 (by decide) (by decide) (by decide)).2 exSEmpty
     (by decide)).2.2.1,
   ((batch_empty exS0 9 5 (by decide) (by decide) (by decide)).2 exSEmpty
     (by decide)).2.2.2.1,
   ((batch_empty exS0 9 5 (by decide) (by decide) (by decide)).2 exSEmpty
     (by decide)).2.2.2.2⟩

end Token
